import Mathlib

/-!
Verification development for the contrastive-divergence gradient estimator in
`ccmpred/objfun/cd/__init__.py` (class `ContrastiveDivergence`).

Shallow embedding conventions:
* numpy float arrays are embedded as exact rationals (`ℚ`);
* the alignment is a list of rows, each row a list of state codes (`ℕ`);
* single-site tensors (shape L×21) are functions `ℕ → ℕ → ℚ`, pairwise tensors
  (shape L×L×21×21) are functions `ℕ → ℕ → ℕ → ℕ → ℚ`; the dimensions are carried
  separately (`ncol`);
* external collaborators (the Gibbs sampling kernel `ccmpred.sampling`, the
  pseudocount frequency estimator `PseudoCounts`, the regularization callable and
  numpy's random source) are oracle parameters of `CD.evaluate`;
* the out-of-bounds numpy access in the sanity check (row index 1 of an array with
  `ncol` rows) is modelled by an `Option` result: `none` is the `IndexError` path.
-/

/-- Single-site tensor: entry `(i, a)` for column `i < L` and state `a < 21`. -/
abbrev Mat2 : Type := ℕ → ℕ → ℚ

/-- Pairwise tensor: entry `(i, j, a, b)` for columns `i, j < L` and states `a, b < 21`. -/
abbrev Ten4 : Type := ℕ → ℕ → ℕ → ℕ → ℚ

/-- Sum of `f a` over the 21 states `a = 0, …, 20`; embeds `np.sum(v[:21])` for a
length-21 slice. -/
def sum21 (f : ℕ → ℚ) : ℚ := ((List.range 21).map f).sum

/-- Position of the pair-block entry `(i, j, a, b)` inside the flat pair block, for
`ncol` columns: the pair tensor is laid out with index order `(i, a, j, b)`, matching
a reshape of the flat pair block to shape `(ncol, 21, ncol, 21)` transposed to
`(i, j, a, b)`. -/
def pidx (ncol i j a b : ℕ) : ℕ := ((i * 21 + a) * ncol + j) * 21 + b

/-- Modelled from the spec: module `ccmpred.parameter_handling` is not under `src/`;
spec §4.1 describes the codec as pure functions parameterized by `ncol` and flags that
control whether a gap state and padding are included, and §3 gives the flat size
`L*21 + L*L*21*21`.  The estimator calls the codec exclusively with `nogapstate=False`
and `padding=False` (source lines 27-32), so this embedding fixes that configuration:
the single-site block keeps all 21 states.  Flat layout: single-site entry `(i, a)` at
position `i*21 + a`, then the pair block with entry `(i, j, a, b)` at position
`21*ncol + pidx ncol i j a b`. -/
def structured_to_linear (ncol : ℕ) (xs : Mat2) (xp : Ten4) : List ℚ :=
  (List.range (ncol * 21)).map (fun k => xs (k / 21) (k % 21)) ++
    (List.range (ncol * ncol * 441)).map
      (fun k => xp (k / 21 / ncol / 21) ((k / 21) % ncol) ((k / 21 / ncol) % 21) (k % 21))

/-- Modelled from the spec: inverse direction of the codec (`to_structured`), in the
same fixed configuration `nogapstate=False`, `add_gap_state=False`, `padding=False`
used at source lines 30-32 and 122-125.  Reads the single-site entry `(i, a)` at flat
position `i*21 + a` and the pair entry `(i, j, a, b)` at `21*ncol + pidx ncol i j a b`. -/
def linear_to_structured (ncol : ℕ) (x : List ℚ) : Mat2 × Ten4 :=
  (fun i a => x.getD (i * 21 + a) 0,
   fun i j a b => x.getD (21 * ncol + pidx ncol i j a b) 0)

/-- State of a `ContrastiveDivergence` object: every `self.…` attribute the source
reads or writes.  `sample_seq_id`, `msa_sampled`, `msa_sampled_weights` are unset
before the first `evaluate` call and are embedded as empty lists at construction. -/
structure CD where
  msa : List (List ℕ)
  weights : List ℚ
  nrow : ℕ
  ncol : ℕ
  neff : ℚ
  freqs_single : Mat2
  freqs_pair : Ten4
  msa_counts_single : Mat2
  msa_counts_pair : Ten4
  Ni : ℕ → ℚ
  Nij : ℕ → ℕ → ℚ
  gibbs_steps : ℕ
  nr_seq_sample : ℕ
  persistent : Bool
  msa_persistent : List (List ℕ)
  weights_persistent : List ℚ
  sample_seq_id : List ℕ
  msa_sampled : List (List ℕ)
  msa_sampled_weights : List ℚ

/-- Embedding of `ContrastiveDivergence.__init__` (source lines 13-74).  The
pseudocount-smoothed frequencies `pseudocounts.freqs` computed by the external
`PseudoCounts` collaborator are taken as inputs `fs`, `fp`.  Mirrors the source:
`neff = sum(weights)`, counts are `freqs * neff`, `Ni`/`Nij` sum the counts over all
21 states (the gap-count reset at lines 49-52 is commented out in the source),
`gibbs_steps = max(gibbs_steps, 1)`, `nr_seq_sample = max(nrow//10, nr_seq_sample)`,
and the persistent pool replicates the row-index list `range(nrow)` cyclically
`ceil(nr_seq_sample / nrow)` times. -/
def CD.init (msa : List (List ℕ)) (weights : List ℚ) (fs : Mat2) (fp : Ten4)
    (gibbs_steps nr_seq_sample : ℕ) (persistent : Bool) : CD :=
  let nrow := msa.length
  let ncol := (msa.headD []).length
  let neff := weights.sum
  let mcs : Mat2 := fun i a => fs i a * neff
  let mcp : Ten4 := fun i j a b => fp i j a b * neff
  let k := Nat.max (nrow / 10) nr_seq_sample
  let reps := (k + nrow - 1) / nrow
  let seq_id := (List.replicate reps (List.range nrow)).flatten
  { msa := msa
    weights := weights
    nrow := nrow
    ncol := ncol
    neff := neff
    freqs_single := fs
    freqs_pair := fp
    msa_counts_single := mcs
    msa_counts_pair := mcp
    Ni := fun i => sum21 (fun a => mcs i a)
    Nij := fun i j => sum21 (fun a => sum21 (fun b => mcp i j a b))
    gibbs_steps := Nat.max gibbs_steps 1
    nr_seq_sample := k
    persistent := persistent
    msa_persistent := seq_id.map (fun t => msa.getD t [])
    weights_persistent := seq_id.map (fun t => weights.getD t 0)
    sample_seq_id := []
    msa_sampled := []
    msa_sampled_weights := [] }

/-- Contract of `np.random.choice(n, k, replace=replace)` (an external numpy call):
the returned index list has length `k`, all entries below `n`, and is duplicate-free
when drawn without replacement. -/
def choiceSpec (n k : ℕ) (replace : Bool) (ids : List ℕ) : Prop :=
  ids.length = k ∧ (∀ t ∈ ids, t < n) ∧ (replace = false → ids.Nodup)

/-- Which random draw `init_sample_alignment` performs (source lines 107-118):
persistent mode draws without replacement from the persistent pool, plain mode draws
with replacement from the original alignment rows. -/
def CD.drawOK (cd : CD) (persistent : Bool) (ids : List ℕ) : Prop :=
  if persistent then choiceSpec cd.msa_persistent.length cd.nr_seq_sample false ids
  else choiceSpec cd.nrow cd.nr_seq_sample true ids

/-- Embedding of `ContrastiveDivergence.init_sample_alignment` (source lines 95-120),
with the index list produced by `np.random.choice` supplied as the oracle input `ids`.
Stores `self.sample_seq_id` and returns the selected rows and weights. -/
def CD.init_sample_alignment (cd : CD) (persistent : Bool) (ids : List ℕ) :
    CD × List (List ℕ) × List ℚ :=
  if persistent then
    ({ cd with sample_seq_id := ids },
     ids.map (fun t => cd.msa_persistent.getD t []),
     ids.map (fun t => cd.weights_persistent.getD t 0))
  else
    ({ cd with sample_seq_id := ids },
     ids.map (fun t => cd.msa.getD t []),
     ids.map (fun t => cd.weights.getD t 0))

/-- Embedding of the fancy-index assignment
`self.msa_persistent[self.sample_seq_id] = self.msa_sampled` (source line 136):
write row `rows[t]` to position `ids[t]` of the pool, sequentially. -/
def writeAt : List (List ℕ) → List ℕ → List (List ℕ) → List (List ℕ)
  | pool, [], _ => pool
  | pool, _, [] => pool
  | pool, i :: ids, r :: rows => writeAt (pool.set i r) ids rows

/-- Source line 155: `sample_counts_single = sampled_freq_single * self.Ni[:, np.newaxis]`. -/
def sampleCountsSingle (cd : CD) (sfs : Mat2) : Mat2 := fun i a => sfs i a * cd.Ni i

/-- Source line 156: `sample_counts_pair = sampled_freq_pair * self.Nij[:, :, np.newaxis, np.newaxis]`. -/
def sampleCountsPair (cd : CD) (sfp : Ten4) : Ten4 := fun i j a b => sfp i j a b * cd.Nij i j

/-- Source line 159: `g_single = sample_counts_single - self.msa_counts_single`. -/
def gradSingle (cd : CD) (sfs : Mat2) : Mat2 :=
  fun i a => sampleCountsSingle cd sfs i a - cd.msa_counts_single i a

/-- Source lines 160 and 174-175: `g_pair = sample_counts_pair - self.msa_counts_pair`
followed by the loop `for i in range(self.ncol): g_pair[i, i, :, :] = 0`. -/
def gradPair (cd : CD) (sfp : Ten4) : Ten4 :=
  fun i j a b =>
    if i = j ∧ i < cd.ncol then 0
    else sampleCountsPair cd sfp i j a b - cd.msa_counts_pair i j a b

/-- Source lines 163-166: the sanity check
`np.abs(np.sum(sample_counts_single[1,:21]) - np.sum(self.msa_counts_single[1,:21])) > 1e-5`
at the fixed reference column 1; `true` means the warning is printed. -/
def sanityWarn (cd : CD) (scs : Mat2) : Bool :=
  decide ((1 : ℚ) / 100000 <
    |sum21 (fun a => scs 1 a) - sum21 (fun a => cd.msa_counts_single 1 a)|)

/-- Result of one `evaluate` call: the placeholder objective `-1`, the raw gradient
vector `g`, the regularization gradient vector `g_reg`, and whether the sanity-check
warning was printed. -/
structure EvalOut where
  fx : ℚ
  g : List ℚ
  g_reg : List ℚ
  warned : Bool

/-- Embedding of `ContrastiveDivergence.evaluate` (source lines 127-185).  Oracle
inputs: `ids` (output of `np.random.choice`), `gibbs` (the external
`ccmpred.sampling.gibbs_sample_sequences`), `pcFreqs` (the external `PseudoCounts`
frequency estimator applied to the sampled alignment and its weights), and `reg`
(the stored regularization callable).  Returns the object state after the call
together with `some` result, or `none` when the sanity check at line 163 raises a
numpy `IndexError` (row index 1 of a single-site count array with `ncol` rows
requires `ncol > 1`); in that case the state mutations already performed (the drawn
index set, the sampled batch and — in persistent mode — the pool write-back at line
136) have still happened, as in the Python exception path.  The slice
`g_single[:, :21]` at line 182 keeps all 21 states and is the identity here. -/
def CD.evaluate (cd : CD) (x : List ℚ) (persistent : Bool) (ids : List ℕ)
    (gibbs : List ℚ → List (List ℕ) → ℕ → List (List ℕ))
    (pcFreqs : List (List ℕ) → List ℚ → Mat2 × Ten4)
    (reg : Mat2 → Ten4 → ℚ × Mat2 × Ten4) : CD × Option EvalOut :=
  let s := cd.init_sample_alignment persistent ids
  let sampled := gibbs x s.2.1 cd.gibbs_steps
  let cd2 := { s.1 with msa_sampled := sampled, msa_sampled_weights := s.2.2 }
  let cd3 :=
    if persistent then { cd2 with msa_persistent := writeAt cd2.msa_persistent ids sampled }
    else cd2
  let sf := pcFreqs sampled s.2.2
  if 1 < cd.ncol then
    let warned := sanityWarn cd (sampleCountsSingle cd sf.1)
    let xsp := linear_to_structured cd.ncol x
    let r := reg xsp.1 xsp.2
    (cd3,
     some { fx := -1
            g := structured_to_linear cd.ncol (gradSingle cd sf.1) (gradPair cd sf.2)
            g_reg := structured_to_linear cd.ncol r.2.1 r.2.2
            warned := warned })
  else (cd3, none)

/-- Embedding of `ContrastiveDivergence.finalize` (source lines 122-125): delinearize
without clipping, same codec configuration. -/
def CD.finalize (cd : CD) (x : List ℚ) : Mat2 × Ten4 := linear_to_structured cd.ncol x

/-- The characterization of `Ni` asserted by the spec (claim C4): the *non-gap*
total, summing the observed single-site counts over the 20 amino-acid states only
(excluding the gap state 20).  The source instead sums all 21 states. -/
def NiNoGap (cd : CD) (i : ℕ) : ℚ := ((List.range 20).map (fun a => cd.msa_counts_single i a)).sum

/-! ### Basic lemmas about the codec layout -/

theorem length_structured_to_linear (L : ℕ) (xs : Mat2) (xp : Ten4) :
    (structured_to_linear L xs xp).length = L * 21 + L * L * 441 := by
  simp [structured_to_linear]

theorem pidx_recompose (n k : ℕ) :
    pidx n (k / 21 / n / 21) ((k / 21) % n) ((k / 21 / n) % 21) (k % 21) = k := by
  have h2 := Nat.div_add_mod (k / 21) n
  unfold pidx
  have e3 : k / 21 / n / 21 * 21 + k / 21 / n % 21 = k / 21 / n := by omega
  rw [e3]
  have e2 : k / 21 / n * n + k / 21 % n = k / 21 := by
    calc k / 21 / n * n + k / 21 % n = n * (k / 21 / n) + k / 21 % n := by ring
      _ = k / 21 := h2
  rw [e2]
  omega

theorem pidx_lt (L i j a b : ℕ) (hi : i < L) (hj : j < L) (ha : a < 21) (hb : b < 21) :
    pidx L i j a b < L * L * 441 := by
  unfold pidx
  have h1 : i * 21 + a + 1 ≤ 21 * L := by omega
  have h2 : (i * 21 + a + 1) * L ≤ 21 * L * L := Nat.mul_le_mul_right L h1
  nlinarith [h2, hj, hb]

theorem pidx_decomp_b (L i j a b : ℕ) (hb : b < 21) : pidx L i j a b % 21 = b := by
  have e0 : pidx L i j a b = 21 * ((i * 21 + a) * L + j) + b := by unfold pidx; ring
  rw [e0, Nat.mul_add_mod]
  exact Nat.mod_eq_of_lt hb

theorem pidx_div21 (L i j a b : ℕ) (hb : b < 21) :
    pidx L i j a b / 21 = (i * 21 + a) * L + j := by
  have e0 : pidx L i j a b = 21 * ((i * 21 + a) * L + j) + b := by unfold pidx; ring
  rw [e0, Nat.mul_add_div (by norm_num)]
  simp [Nat.div_eq_of_lt hb]

theorem pidx_decomp_j (L i j a b : ℕ) (hj : j < L) (hb : b < 21) :
    pidx L i j a b / 21 % L = j := by
  have e2 : (i * 21 + a) * L + j = L * (i * 21 + a) + j := by ring
  rw [pidx_div21 L i j a b hb, e2, Nat.mul_add_mod]
  exact Nat.mod_eq_of_lt hj

theorem pidx_div21L (L i j a b : ℕ) (hj : j < L) (hb : b < 21) :
    pidx L i j a b / 21 / L = i * 21 + a := by
  have e2 : (i * 21 + a) * L + j = L * (i * 21 + a) + j := by ring
  rw [pidx_div21 L i j a b hb, e2, Nat.mul_add_div (by omega)]
  simp [Nat.div_eq_of_lt hj]

theorem pidx_decomp_a (L i j a b : ℕ) (hj : j < L) (ha : a < 21) (hb : b < 21) :
    pidx L i j a b / 21 / L % 21 = a := by
  have ec : i * 21 + a = 21 * i + a := by ring
  rw [pidx_div21L L i j a b hj hb, ec, Nat.mul_add_mod]
  exact Nat.mod_eq_of_lt ha

theorem pidx_decomp_i (L i j a b : ℕ) (hj : j < L) (ha : a < 21) (hb : b < 21) :
    pidx L i j a b / 21 / L / 21 = i := by
  have ec : i * 21 + a = 21 * i + a := by ring
  rw [pidx_div21L L i j a b hj hb, ec, Nat.mul_add_div (by norm_num)]
  simp [Nat.div_eq_of_lt ha]

theorem structured_to_linear_getD_single (L : ℕ) (xs : Mat2) (xp : Ten4) (i a : ℕ)
    (hi : i < L) (ha : a < 21) :
    (structured_to_linear L xs xp).getD (i * 21 + a) 0 = xs i a := by
  have hk : i * 21 + a < L * 21 := by omega
  have h2 : i * 21 + a < (structured_to_linear L xs xp).length := by
    rw [length_structured_to_linear]; omega
  rw [List.getD_eq_getElem _ _ h2]
  simp only [structured_to_linear]
  rw [List.getElem_append_left (by simpa using hk)]
  simp only [List.getElem_map, List.getElem_range]
  have e1 : (i * 21 + a) / 21 = i := by omega
  have e2 : (i * 21 + a) % 21 = a := by omega
  rw [e1, e2]

theorem structured_to_linear_getD_pair (L : ℕ) (xs : Mat2) (xp : Ten4) (i j a b : ℕ)
    (hi : i < L) (hj : j < L) (ha : a < 21) (hb : b < 21) :
    (structured_to_linear L xs xp).getD (21 * L + pidx L i j a b) 0 = xp i j a b := by
  have hk : pidx L i j a b < L * L * 441 := pidx_lt L i j a b hi hj ha hb
  have h2 : 21 * L + pidx L i j a b < (structured_to_linear L xs xp).length := by
    rw [length_structured_to_linear]; omega
  rw [List.getD_eq_getElem _ _ h2]
  simp only [structured_to_linear]
  rw [List.getElem_append_right (by simp; omega)]
  simp only [List.length_map, List.length_range, List.getElem_map, List.getElem_range]
  have e : 21 * L + pidx L i j a b - L * 21 = pidx L i j a b := by omega
  rw [e, pidx_decomp_i L i j a b hj ha hb, pidx_decomp_j L i j a b hj hb,
    pidx_decomp_a L i j a b hj ha hb, pidx_decomp_b L i j a b hb]

theorem structured_to_linear_left_inverse (L : ℕ) (x : List ℚ)
    (hx : x.length = L * 21 + L * L * 441) :
    structured_to_linear L (linear_to_structured L x).1 (linear_to_structured L x).2 = x := by
  apply List.ext_getElem
  · rw [length_structured_to_linear, hx]
  · intro n h1 h2
    rw [length_structured_to_linear] at h1
    simp only [structured_to_linear]
    by_cases hn : n < L * 21
    · rw [List.getElem_append_left (by simpa using hn)]
      simp only [List.getElem_map, List.getElem_range, linear_to_structured]
      have e : n / 21 * 21 + n % 21 = n := by omega
      rw [e, List.getD_eq_getElem _ _ h2]
    · rw [List.getElem_append_right (by simp; omega)]
      simp only [List.length_map, List.length_range, List.getElem_map, List.getElem_range,
        linear_to_structured]
      rw [pidx_recompose]
      have e : 21 * L + (n - L * 21) = n := by omega
      rw [e, List.getD_eq_getElem _ _ h2]

/-! ### Lemmas about the persistent pool -/

theorem flatten_replicate_range (r n : ℕ) :
    (List.replicate r (List.range n)).flatten = (List.range (r * n)).map (fun t => t % n) := by
  induction r with
  | zero => simp
  | succ r ih =>
    rw [List.replicate_succ, List.flatten_cons, ih]
    have e : (r + 1) * n = n + r * n := by ring
    rw [e, List.range_add, List.map_append]
    congr 1
    · refine ((List.map_congr_left ?_).trans (List.map_id _)).symm
      intro t ht
      exact Nat.mod_eq_of_lt (List.mem_range.mp ht)
    · rw [List.map_map]
      refine List.map_congr_left ?_
      intro t _
      simp [Nat.add_mod_left]

theorem length_writeAt (pool : List (List ℕ)) (ids : List ℕ) (rows : List (List ℕ)) :
    (writeAt pool ids rows).length = pool.length := by
  induction ids generalizing pool rows with
  | nil => simp [writeAt]
  | cons i ids ih =>
    cases rows with
    | nil => simp [writeAt]
    | cons r rows =>
      calc (writeAt pool (i :: ids) (r :: rows)).length
          = (writeAt (pool.set i r) ids rows).length := rfl
        _ = (pool.set i r).length := ih _ _
        _ = pool.length := by simp

theorem writeAt_getD_of_not_mem (pool : List (List ℕ)) (ids : List ℕ) (rows : List (List ℕ))
    (t : ℕ) (ht : t ∉ ids) : (writeAt pool ids rows).getD t [] = pool.getD t [] := by
  induction ids generalizing pool rows with
  | nil => simp [writeAt]
  | cons i ids ih =>
    cases rows with
    | nil => simp [writeAt]
    | cons r rows =>
      have hti : t ≠ i := by
        intro h
        exact ht (by simp [h])
      have ht2 : t ∉ ids := fun h => ht (List.mem_cons_of_mem _ h)
      calc (writeAt pool (i :: ids) (r :: rows)).getD t []
          = (writeAt (pool.set i r) ids rows).getD t [] := rfl
        _ = (pool.set i r).getD t [] := ih _ _ ht2
        _ = pool.getD t [] := by
            simp [List.getD_eq_getElem?_getD, List.getElem?_set_ne (Ne.symm hti)]

theorem le_mul_ceil (n k : ℕ) (hn : 1 ≤ n) : k ≤ n * ((k + n - 1) / n) := by
  have h1 := Nat.div_add_mod (k + n - 1) n
  have h2 : (k + n - 1) % n < n := Nat.mod_lt _ (by omega)
  generalize hq : (k + n - 1) / n = q at h1 ⊢
  generalize hm : (k + n - 1) % n = m at h1 h2
  generalize hp : n * q = p at h1 ⊢
  omega

/-! ### Concrete instances used by counterexamples and witnesses -/

/-- A 2×2 alignment with rows `[0,1]` and `[1,0]`. -/
def msaEx : List (List ℕ) := [[0, 1], [1, 0]]

/-- Uniform unit weights for `msaEx`. -/
def wEx : List ℚ := [1, 1]

/-- Uniform single-site frequencies over the 21 states. -/
def fsU : Mat2 := fun _ _ => 1 / 21

/-- Uniform pair frequencies over the 21×21 state pairs. -/
def fpU : Ten4 := fun _ _ _ _ => 1 / 441

/-- Estimator built on `msaEx` with `nr_seq_sample` floor 2 (so `nr_seq_sample = 2`,
persistent pool = the two original rows). -/
def cdEx : CD := CD.init msaEx wEx fsU fpU 1 2 false

/-- Identity stub for the external Gibbs sampling kernel. -/
def gibbsId : List ℚ → List (List ℕ) → ℕ → List (List ℕ) := fun _ m _ => m

/-- Frequency-estimator stub returning the uniform frequencies. -/
def pcU : List (List ℕ) → List ℚ → Mat2 × Ten4 := fun _ _ => (fsU, fpU)

/-- Frequency-estimator stub returning all-zero frequencies. -/
def pcZero : List (List ℕ) → List ℚ → Mat2 × Ten4 :=
  fun _ _ => (fun _ _ => 0, fun _ _ _ _ => 0)

/-- Regularization stub returning zero value and zero gradients. -/
def regZero : Mat2 → Ten4 → ℚ × Mat2 × Ten4 := fun _ _ => (0, fun _ _ => 0, fun _ _ _ _ => 0)

/-- A duplicate-free draw of both pool rows of `cdEx`. -/
def idsP : List ℕ := [0, 1]

/-- A draw with a duplicate (valid for sampling with replacement from 2 rows). -/
def idsE : List ℕ := [0, 0]

/-- A single-column alignment (L = 1). -/
def msa1col : List (List ℕ) := [[0]]

/-- Estimator built on the single-column alignment. -/
def cd1col : CD := CD.init msa1col [1] fsU fpU 1 2 false

/-- A 4×3 alignment of zeros (the spec scenario N=4, L=3). -/
def msa4 : List (List ℕ) := [[0, 0, 0], [0, 0, 0], [0, 0, 0], [0, 0, 0]]

/-- Unit weights for `msa4`. -/
def w4 : List ℚ := [1, 1, 1, 1]

/-- Expansion of `sum21` into an explicit 21-term sum, used to evaluate concrete
rational instances. -/
theorem sum21_eq (f : ℕ → ℚ) : sum21 f =
    f 0 + (f 1 + (f 2 + (f 3 + (f 4 + (f 5 + (f 6 + (f 7 + (f 8 + (f 9 + (f 10 +
    (f 11 + (f 12 + (f 13 + (f 14 + (f 15 + (f 16 + (f 17 + (f 18 + (f 19 +
    (f 20 + 0)))))))))))))))))))) := rfl

/-! ### Claim theorems -/

/-- Claim C2 (confirmed): for every flat parameter vector produced by the estimator's
linearization `structured_to_linear` (fixed configuration `nogapstate=False`,
`padding=False`), delinearizing with `linear_to_structured` and re-linearizing is the
identity, exactly. -/
theorem claim_C2_roundtrip (L : ℕ) (xs : Mat2) (xp : Ten4) :
    structured_to_linear L
        (linear_to_structured L (structured_to_linear L xs xp)).1
        (linear_to_structured L (structured_to_linear L xs xp)).2
      = structured_to_linear L xs xp :=
  structured_to_linear_left_inverse L _ (length_structured_to_linear L xs xp)

/-- Claim C6 (confirmed): at construction `nr_seq_sample = max(configured_minimum,
floor(nrow / 10))` (source line 67), and in the concrete N=4, L=3 scenario with the
default minimum 500 the result is 500. -/
theorem claim_C6_nr_seq_sample (msa : List (List ℕ)) (weights : List ℚ) (fs : Mat2)
    (fp : Ten4) (gs k : ℕ) (p : Bool) :
    (CD.init msa weights fs fp gs k p).nr_seq_sample = Nat.max k (msa.length / 10) ∧
    (CD.init msa4 w4 fsU fpU 1 500 false).nr_seq_sample = 500 := by
  constructor
  · show Nat.max (msa.length / 10) k = Nat.max k (msa.length / 10)
    exact Nat.max_comm _ _
  · rfl

/-- Claim C1 counterexample: the claim asserts the flat optimization vector's
single-site block has `L*20` entries (total `L*20 + L*L*441`); for `L = 1` the
vector produced by the estimator's linearization has `1*21 + 441 = 462` entries,
not `461`. -/
theorem claim_C1_counterexample :
    (structured_to_linear 1 (fun _ _ => (0 : ℚ)) (fun _ _ _ _ => (0 : ℚ))).length
      ≠ 1 * 20 + 1 * 1 * 21 * 21 := by
  rw [length_structured_to_linear]
  decide

/-- Claim C1 amended: the estimator's linearization keeps the gap state in the
single-site block (`nogapstate=False`, source lines 27-32 and `nsingle = ncol*21`
at line 39): the flat vector has `L*21 + L*L*441` entries, the single-site gap-state
entry `(i, 20)` is present at flat position `i*21 + 20`, and the raw gradient vector
returned by `evaluate` has the same `21`-state length. -/
theorem claim_C1_amended (L : ℕ) (xs : Mat2) (xp : Ten4) (i : ℕ) (cd : CD) (x : List ℚ)
    (p : Bool) (ids : List ℕ) (gibbs : List ℚ → List (List ℕ) → ℕ → List (List ℕ))
    (pcFreqs : List (List ℕ) → List ℚ → Mat2 × Ten4)
    (reg : Mat2 → Ten4 → ℚ × Mat2 × Ten4) :
    (structured_to_linear L xs xp).length = L * 21 + L * L * 441 ∧
    (i < L → (structured_to_linear L xs xp).getD (i * 21 + 20) 0 = xs i 20) ∧
    (1 < cd.ncol →
      (cd.evaluate x p ids gibbs pcFreqs reg).2.map (fun out => out.g.length)
        = some (cd.ncol * 21 + cd.ncol * cd.ncol * 441)) := by
  refine ⟨length_structured_to_linear L xs xp,
    fun hi => structured_to_linear_getD_single L xs xp i 20 hi (by norm_num),
    fun h => ?_⟩
  simp only [CD.evaluate]
  rw [if_pos h]
  simp [length_structured_to_linear]

theorem claim_C1_amended_witness :
    (structured_to_linear 1 fsU fpU).getD (0 * 21 + 20) 0 = fsU 0 20 ∧
    (cdEx.evaluate [] false idsE gibbsId pcU regZero).2.map (fun out => out.g.length)
      = some (cdEx.ncol * 21 + cdEx.ncol * cdEx.ncol * 441) :=
  ⟨(claim_C1_amended 1 fsU fpU 0 cdEx [] false idsE gibbsId pcU regZero).2.1 (by decide),
   (claim_C1_amended 1 fsU fpU 0 cdEx [] false idsE gibbsId pcU regZero).2.2 (by decide)⟩

/-- Claim C5 (confirmed): after every `evaluate` call the self-pair gradient block is
zero — `gradPair cd sfp i i a b = 0` for every column `i < ncol` (source lines
174-175), and the corresponding diagonal-block entries of the returned flat raw
gradient vector are zero. -/
theorem claim_C5_selfpair_zero (cd : CD) (sfp : Ten4) (x : List ℚ) (p : Bool)
    (ids : List ℕ) (gibbs : List ℚ → List (List ℕ) → ℕ → List (List ℕ))
    (pcFreqs : List (List ℕ) → List ℚ → Mat2 × Ten4)
    (reg : Mat2 → Ten4 → ℚ × Mat2 × Ten4) (i a b : ℕ)
    (hi : i < cd.ncol) (ha : a < 21) (hb : b < 21) :
    gradPair cd sfp i i a b = 0 ∧
    (1 < cd.ncol →
      (cd.evaluate x p ids gibbs pcFreqs reg).2.map
          (fun out => out.g.getD (21 * cd.ncol + pidx cd.ncol i i a b) 0) = some 0) := by
  constructor
  · simp [gradPair, hi]
  · intro h
    simp only [CD.evaluate]
    rw [if_pos h]
    simp only [Option.map_some']
    rw [structured_to_linear_getD_pair cd.ncol _ _ i i a b hi hi ha hb]
    simp [gradPair, hi]

theorem claim_C5_selfpair_zero_witness :
    gradPair cdEx fpU 0 0 0 0 = 0 ∧
    (cdEx.evaluate [] false idsE gibbsId pcU regZero).2.map
        (fun out => out.g.getD (21 * cdEx.ncol + pidx cdEx.ncol 0 0 0 0) 0) = some 0 :=
  ⟨(claim_C5_selfpair_zero cdEx fpU [] false idsE gibbsId pcU regZero 0 0 0
      (by decide) (by decide) (by decide)).1,
   (claim_C5_selfpair_zero cdEx fpU [] false idsE gibbsId pcU regZero 0 0 0
      (by decide) (by decide) (by decide)).2 (by decide)⟩

/-- Claim C10 (confirmed): the sanity check always reads row index 1 of the
single-site count arrays (source line 163), so `evaluate` needs at least 2 columns:
with `ncol ≤ 1` it hits the `IndexError` path (result `none`) instead of returning a
gradient, and with `ncol > 1` it returns a result. -/
theorem claim_C10_needs_two_columns (cd : CD) (x : List ℚ) (p : Bool) (ids : List ℕ)
    (gibbs : List ℚ → List (List ℕ) → ℕ → List (List ℕ))
    (pcFreqs : List (List ℕ) → List ℚ → Mat2 × Ten4)
    (reg : Mat2 → Ten4 → ℚ × Mat2 × Ten4) :
    (cd.ncol ≤ 1 → (cd.evaluate x p ids gibbs pcFreqs reg).2 = none) ∧
    (1 < cd.ncol → ((cd.evaluate x p ids gibbs pcFreqs reg).2).isSome = true) := by
  constructor
  · intro h
    simp only [CD.evaluate]
    rw [if_neg (by omega)]
  · intro h
    simp only [CD.evaluate]
    rw [if_pos h]
    rfl

theorem claim_C10_needs_two_columns_witness :
    (cd1col.evaluate [] false idsE gibbsId pcU regZero).2 = none ∧
    ((cdEx.evaluate [] false idsE gibbsId pcU regZero).2).isSome = true :=
  ⟨(claim_C10_needs_two_columns cd1col [] false idsE gibbsId pcU regZero).1 (by decide),
   (claim_C10_needs_two_columns cdEx [] false idsE gibbsId pcU regZero).2 (by decide)⟩

/-- Helper: reading a mapped range at an in-range position. -/
theorem getD_map_range {α : Type} (g : ℕ → α) (m t : ℕ) (d : α) (h : t < m) :
    ((List.range m).map g).getD t d = g t := by
  rw [List.getD_eq_getElem _ _ (by simpa using h)]
  simp

/-- Claim C3 (confirmed): the draw step of `evaluate` (source lines 107-118) samples
`nr_seq_sample` indices with replacement from `[0, nrow)` when not persistent
(duplicates allowed), and `nr_seq_sample` distinct indices from the persistent pool
when persistent; that same index list is the one used for the pool write-back at
source line 136. -/
theorem claim_C3_draw (cd : CD) (ids ids2 : List ℕ) (x : List ℚ)
    (gibbs : List ℚ → List (List ℕ) → ℕ → List (List ℕ))
    (pcFreqs : List (List ℕ) → List ℚ → Mat2 × Ten4)
    (reg : Mat2 → Ten4 → ℚ × Mat2 × Ten4) :
    (cd.drawOK true ids →
      ids.Nodup ∧ ids.length = cd.nr_seq_sample ∧ ∀ t ∈ ids, t < cd.msa_persistent.length) ∧
    (cd.drawOK false ids2 → ids2.length = cd.nr_seq_sample ∧ ∀ t ∈ ids2, t < cd.nrow) ∧
    (1 ≤ cd.nrow → 2 ≤ cd.nr_seq_sample → ∃ l, cd.drawOK false l ∧ ¬ l.Nodup) ∧
    ((cd.evaluate x true ids gibbs pcFreqs reg).1.msa_persistent =
      writeAt cd.msa_persistent ids
        (gibbs x (ids.map (fun t => cd.msa_persistent.getD t [])) cd.gibbs_steps)) := by
  refine ⟨fun h => ?_, fun h => ?_, fun hn hk => ?_, ?_⟩
  · unfold CD.drawOK at h
    rw [if_pos rfl] at h
    exact ⟨h.2.2 rfl, h.1, h.2.1⟩
  · unfold CD.drawOK at h
    rw [if_neg (by simp)] at h
    exact ⟨h.1, h.2.1⟩
  · refine ⟨List.replicate cd.nr_seq_sample 0, ?_, ?_⟩
    · unfold CD.drawOK
      rw [if_neg (by simp)]
      refine ⟨by simp, fun t ht => ?_, by simp⟩
      rw [List.eq_of_mem_replicate ht]
      omega
    · rw [List.nodup_replicate]
      omega
  · by_cases hc : 1 < cd.ncol
    · simp only [CD.evaluate]
      rw [if_pos hc]
      simp [CD.init_sample_alignment]
    · simp only [CD.evaluate]
      rw [if_neg hc]
      simp [CD.init_sample_alignment]

theorem claim_C3_draw_witness :
    (idsP.Nodup ∧ idsP.length = cdEx.nr_seq_sample ∧
      ∀ t ∈ idsP, t < cdEx.msa_persistent.length) ∧
    (∃ l, cdEx.drawOK false l ∧ ¬ l.Nodup) :=
  ⟨(claim_C3_draw cdEx idsP idsE [] gibbsId pcU regZero).1
      (by exact ⟨by decide, by decide, fun _ => by decide⟩),
   (claim_C3_draw cdEx idsP idsE [] gibbsId pcU regZero).2.2.1 (by decide) (by decide)⟩

/-- Claim C7 (confirmed): the persistent pool built at construction (source lines
72-74) replicates the original rows cyclically `ceil(nr_seq_sample / nrow)` times
(entry `t` of the pool is original row `t % nrow`, and likewise for the weights), so
its size is `nrow * ceil(nr_seq_sample / nrow)`, at least `nr_seq_sample` and a
multiple of `nrow`; and no `evaluate` call ever changes the pool's size (write-back
at line 136 replaces rows in place). -/
theorem claim_C7_pool (msa : List (List ℕ)) (weights : List ℚ) (fs : Mat2) (fp : Ten4)
    (gs k : ℕ) (p : Bool) (h : 1 ≤ msa.length) :
    (CD.init msa weights fs fp gs k p).msa_persistent.length =
      msa.length *
        (((CD.init msa weights fs fp gs k p).nr_seq_sample + msa.length - 1) / msa.length) ∧
    (CD.init msa weights fs fp gs k p).nr_seq_sample ≤
      (CD.init msa weights fs fp gs k p).msa_persistent.length ∧
    msa.length ∣ (CD.init msa weights fs fp gs k p).msa_persistent.length ∧
    (∀ t, t < (CD.init msa weights fs fp gs k p).msa_persistent.length →
      (CD.init msa weights fs fp gs k p).msa_persistent.getD t [] =
        msa.getD (t % msa.length) []) ∧
    (∀ t, t < (CD.init msa weights fs fp gs k p).msa_persistent.length →
      (CD.init msa weights fs fp gs k p).weights_persistent.getD t 0 =
        weights.getD (t % msa.length) 0) ∧
    (CD.init msa weights fs fp gs k p).weights_persistent.length =
      (CD.init msa weights fs fp gs k p).msa_persistent.length ∧
    (∀ (cd : CD) (x : List ℚ) (pp : Bool) (ids : List ℕ)
        (gibbs : List ℚ → List (List ℕ) → ℕ → List (List ℕ))
        (pcFreqs : List (List ℕ) → List ℚ → Mat2 × Ten4)
        (reg : Mat2 → Ten4 → ℚ × Mat2 × Ten4),
      ((cd.evaluate x pp ids gibbs pcFreqs reg).1).msa_persistent.length =
        cd.msa_persistent.length) := by
  have hK : (CD.init msa weights fs fp gs k p).nr_seq_sample
      = Nat.max (msa.length / 10) k := rfl
  have hmp : (CD.init msa weights fs fp gs k p).msa_persistent =
      (List.range ((Nat.max (msa.length / 10) k + msa.length - 1) / msa.length * msa.length)).map
        (fun t => msa.getD (t % msa.length) []) := by
    show ((List.replicate _ (List.range msa.length)).flatten).map _ = _
    rw [flatten_replicate_range, List.map_map]
    rfl
  have hwp : (CD.init msa weights fs fp gs k p).weights_persistent =
      (List.range ((Nat.max (msa.length / 10) k + msa.length - 1) / msa.length * msa.length)).map
        (fun t => weights.getD (t % msa.length) 0) := by
    show ((List.replicate _ (List.range msa.length)).flatten).map _ = _
    rw [flatten_replicate_range, List.map_map]
    rfl
  have hlen : (CD.init msa weights fs fp gs k p).msa_persistent.length =
      (Nat.max (msa.length / 10) k + msa.length - 1) / msa.length * msa.length := by
    rw [hmp]
    simp
  refine ⟨?_, ?_, ?_, fun t ht => ?_, fun t ht => ?_, ?_, ?_⟩
  · rw [hlen, hK]
    exact Nat.mul_comm _ _
  · rw [hlen, hK]
    exact (le_mul_ceil msa.length (Nat.max (msa.length / 10) k) h).trans_eq
      (Nat.mul_comm _ _)
  · rw [hlen]
    exact dvd_mul_left _ _
  · rw [hlen] at ht
    rw [hmp]
    exact getD_map_range _ _ _ _ ht
  · rw [hlen] at ht
    rw [hwp]
    exact getD_map_range _ _ _ _ ht
  · rw [hwp, hmp]
    simp
  · intro cd x pp ids gibbs pcFreqs reg
    by_cases hc : 1 < cd.ncol
    · cases pp
      · simp only [CD.evaluate]
        rw [if_pos hc]
        simp [CD.init_sample_alignment]
      · simp only [CD.evaluate]
        rw [if_pos hc]
        simp [CD.init_sample_alignment, length_writeAt]
    · cases pp
      · simp only [CD.evaluate]
        rw [if_neg hc]
        simp [CD.init_sample_alignment]
      · simp only [CD.evaluate]
        rw [if_neg hc]
        simp [CD.init_sample_alignment, length_writeAt]

theorem claim_C7_pool_witness :
    cdEx.nr_seq_sample ≤ cdEx.msa_persistent.length ∧
    msaEx.length ∣ cdEx.msa_persistent.length ∧
    cdEx.msa_persistent.getD 1 [] = msaEx.getD (1 % msaEx.length) [] :=
  ⟨(claim_C7_pool msaEx wEx fsU fpU 1 2 false (by decide)).2.1,
   (claim_C7_pool msaEx wEx fsU fpU 1 2 false (by decide)).2.2.1,
   (claim_C7_pool msaEx wEx fsU fpU 1 2 false (by decide)).2.2.2.1 1 (by decide)⟩

/-- Claim C8 (confirmed): the statistics-drift diagnostic (source lines 163-166) is
never fatal.  Whenever the warning condition holds (`sanityWarn … = true`), the
`evaluate` call still returns its gradient result (with the warning flag set), and in
persistent mode the pool write-back at line 136 has been performed before the check
runs, so it happens even when the diagnostic fails. -/
theorem claim_C8_warning_nonfatal (cd : CD) (x : List ℚ) (ids : List ℕ)
    (gibbs : List ℚ → List (List ℕ) → ℕ → List (List ℕ))
    (pcFreqs : List (List ℕ) → List ℚ → Mat2 × Ten4)
    (reg : Mat2 → Ten4 → ℚ × Mat2 × Ten4) (h : 1 < cd.ncol)
    (hw : sanityWarn cd (sampleCountsSingle cd
        (pcFreqs (gibbs x ((cd.init_sample_alignment true ids).2.1) cd.gibbs_steps)
          ((cd.init_sample_alignment true ids).2.2)).1) = true) :
    (cd.evaluate x true ids gibbs pcFreqs reg).2.map (fun out => out.warned) = some true ∧
    (cd.evaluate x true ids gibbs pcFreqs reg).2.map (fun out => out.g) =
      some (structured_to_linear cd.ncol
        (gradSingle cd
          (pcFreqs (gibbs x ((cd.init_sample_alignment true ids).2.1) cd.gibbs_steps)
            ((cd.init_sample_alignment true ids).2.2)).1)
        (gradPair cd
          (pcFreqs (gibbs x ((cd.init_sample_alignment true ids).2.1) cd.gibbs_steps)
            ((cd.init_sample_alignment true ids).2.2)).2)) ∧
    (cd.evaluate x true ids gibbs pcFreqs reg).1.msa_persistent =
      writeAt cd.msa_persistent ids
        (gibbs x ((cd.init_sample_alignment true ids).2.1) cd.gibbs_steps) := by
  refine ⟨?_, ?_, ?_⟩
  · simp only [CD.evaluate]
    rw [if_pos h]
    simp only [Option.map_some']
    exact congrArg some hw
  · simp only [CD.evaluate]
    rw [if_pos h]
    simp only [Option.map_some']
  · simp only [CD.evaluate]
    rw [if_pos h]
    simp [CD.init_sample_alignment]

theorem claim_C8_warning_nonfatal_witness :
    (cdEx.evaluate [] true idsP gibbsId pcZero regZero).2.map (fun out => out.warned)
      = some true ∧
    (cdEx.evaluate [] true idsP gibbsId pcZero regZero).1.msa_persistent =
      writeAt cdEx.msa_persistent idsP
        (gibbsId [] ((cdEx.init_sample_alignment true idsP).2.1) cdEx.gibbs_steps) :=
  ⟨(claim_C8_warning_nonfatal cdEx [] idsP gibbsId pcZero regZero (by decide)
      (by rw [sanityWarn, decide_eq_true_iff, sum21_eq, sum21_eq]
          have hmc : ∀ a, cdEx.msa_counts_single 1 a = fsU 1 a * wEx.sum := fun a => rfl
          simp only [hmc, sampleCountsSingle, pcZero]
          norm_num [fsU, wEx])).1,
   (claim_C8_warning_nonfatal cdEx [] idsP gibbsId pcZero regZero (by decide)
      (by rw [sanityWarn, decide_eq_true_iff, sum21_eq, sum21_eq]
          have hmc : ∀ a, cdEx.msa_counts_single 1 a = fsU 1 a * wEx.sum := fun a => rfl
          simp only [hmc, sampleCountsSingle, pcZero]
          norm_num [fsU, wEx])).2.2⟩

/-- Claim C9 counterexample: an `evaluate` call with `persistent = false` leaves the
persistent pool untouched, yet it still mutates the estimator-owned attribute
`self.sample_seq_id` (source lines 110/116), so the persistent pool is not the only
estimator-owned state `evaluate` mutates. -/
theorem claim_C9_counterexample :
    (cdEx.evaluate [] false idsE gibbsId pcU regZero).1.msa_persistent
      = cdEx.msa_persistent ∧
    (cdEx.evaluate [] false idsE gibbsId pcU regZero).1.sample_seq_id
      ≠ cdEx.sample_seq_id :=
  ⟨rfl, by decide⟩

/-- Claim C9 amended: `evaluate` never modifies the original alignment, the weights,
or the observed statistics fixed at construction; among estimator-owned state it
mutates only the persistent pool — and that only at the drawn index set when
`persistent = true` — plus the per-call scratch attributes `sample_seq_id`,
`msa_sampled`, `msa_sampled_weights`; a call with `persistent = false` leaves the
persistent pool and its weights unchanged. -/
theorem claim_C9_amended (cd : CD) (x : List ℚ) (p : Bool) (ids : List ℕ)
    (gibbs : List ℚ → List (List ℕ) → ℕ → List (List ℕ))
    (pcFreqs : List (List ℕ) → List ℚ → Mat2 × Ten4)
    (reg : Mat2 → Ten4 → ℚ × Mat2 × Ten4) :
    (cd.evaluate x p ids gibbs pcFreqs reg).1.msa = cd.msa ∧
    (cd.evaluate x p ids gibbs pcFreqs reg).1.weights = cd.weights ∧
    (cd.evaluate x p ids gibbs pcFreqs reg).1.msa_counts_single = cd.msa_counts_single ∧
    (cd.evaluate x p ids gibbs pcFreqs reg).1.msa_counts_pair = cd.msa_counts_pair ∧
    (cd.evaluate x p ids gibbs pcFreqs reg).1.Ni = cd.Ni ∧
    (cd.evaluate x p ids gibbs pcFreqs reg).1.Nij = cd.Nij ∧
    (cd.evaluate x p ids gibbs pcFreqs reg).1.weights_persistent = cd.weights_persistent ∧
    (p = false →
      (cd.evaluate x p ids gibbs pcFreqs reg).1.msa_persistent = cd.msa_persistent) ∧
    (p = true →
      (cd.evaluate x p ids gibbs pcFreqs reg).1.msa_persistent =
        writeAt cd.msa_persistent ids
          (gibbs x (ids.map (fun t => cd.msa_persistent.getD t [])) cd.gibbs_steps) ∧
      ∀ t, t ∉ ids →
        (cd.evaluate x p ids gibbs pcFreqs reg).1.msa_persistent.getD t [] =
          cd.msa_persistent.getD t []) ∧
    (cd.evaluate x p ids gibbs pcFreqs reg).1.sample_seq_id = ids := by
  cases p
  · by_cases hc : 1 < cd.ncol
    · simp only [CD.evaluate]
      rw [if_pos hc]
      exact ⟨rfl, rfl, rfl, rfl, rfl, rfl, rfl, fun _ => rfl, fun hp => absurd hp (by decide), rfl⟩
    · simp only [CD.evaluate]
      rw [if_neg hc]
      exact ⟨rfl, rfl, rfl, rfl, rfl, rfl, rfl, fun _ => rfl, fun hp => absurd hp (by decide), rfl⟩
  · by_cases hc : 1 < cd.ncol
    · simp only [CD.evaluate]
      rw [if_pos hc]
      exact ⟨rfl, rfl, rfl, rfl, rfl, rfl, rfl, fun hp => absurd hp (by decide),
        fun _ => ⟨rfl, fun t ht => writeAt_getD_of_not_mem cd.msa_persistent ids _ t ht⟩, rfl⟩
    · simp only [CD.evaluate]
      rw [if_neg hc]
      exact ⟨rfl, rfl, rfl, rfl, rfl, rfl, rfl, fun hp => absurd hp (by decide),
        fun _ => ⟨rfl, fun t ht => writeAt_getD_of_not_mem cd.msa_persistent ids _ t ht⟩, rfl⟩

theorem claim_C9_amended_witness :
    (cdEx.evaluate [] true idsP gibbsId pcU regZero).1.msa = cdEx.msa ∧
    (cdEx.evaluate [] true idsP gibbsId pcU regZero).1.msa_persistent =
      writeAt cdEx.msa_persistent idsP
        (gibbsId [] (idsP.map (fun t => cdEx.msa_persistent.getD t [])) cdEx.gibbs_steps) :=
  ⟨(claim_C9_amended cdEx [] true idsP gibbsId pcU regZero).1,
   ((claim_C9_amended cdEx [] true idsP gibbsId pcU regZero).2.2.2.2.2.2.2.2.1 rfl).1⟩

/-- Claim C4 counterexample: the claim says the rescaling totals are the *non-gap*
weighted counts.  On the concrete estimator `cdEx` (uniform frequencies, so the gap
state 20 has nonzero observed count), the single-site gradient entry `(0, 0)` actually
returned by `evaluate` disagrees with the value the claim's non-gap totals
(`NiNoGap`) would produce, and the code's total `Ni 0` (sum over all 21 states)
differs from the claim's non-gap total. -/
theorem claim_C4_counterexample :
    (cdEx.evaluate [] false idsE gibbsId pcU regZero).2.map
        (fun out => out.g.getD (0 * 21 + 0) 0)
      ≠ some (fsU 0 0 * NiNoGap cdEx 0 - cdEx.msa_counts_single 0 0) ∧
    cdEx.Ni 0 ≠ NiNoGap cdEx 0 := by
  have hNi : cdEx.Ni 0 = 2 := by
    have h : cdEx.Ni 0 = sum21 (fun a => fsU 0 a * wEx.sum) := rfl
    rw [h, sum21_eq]
    norm_num [fsU, wEx]
  have hNg : NiNoGap cdEx 0 = 40 / 21 := by
    have h : ∀ a, cdEx.msa_counts_single 0 a = fsU 0 a * wEx.sum := fun a => rfl
    rw [NiNoGap]
    norm_num [h, fsU, wEx, List.range_succ]
  have hmc : cdEx.msa_counts_single 0 0 = 2 / 21 := by
    have h : cdEx.msa_counts_single 0 0 = fsU 0 0 * wEx.sum := rfl
    rw [h]
    norm_num [fsU, wEx]
  have hval : (cdEx.evaluate [] false idsE gibbsId pcU regZero).2.map
      (fun out => out.g.getD (0 * 21 + 0) 0)
      = some (fsU 0 0 * cdEx.Ni 0 - cdEx.msa_counts_single 0 0) := by
    have h2 : (1 : ℕ) < cdEx.ncol := by decide
    simp only [CD.evaluate]
    rw [if_pos h2]
    simp only [Option.map_some']
    rw [structured_to_linear_getD_single cdEx.ncol _ _ 0 0 (by decide) (by decide)]
    rfl
  constructor
  · rw [hval, hNi, hNg, hmc]
    simp only [ne_eq, Option.some.injEq]
    norm_num [fsU]
  · rw [hNi, hNg]
    norm_num

/-- Claim C4 amended: in every `evaluate` call the sampled frequencies are rescaled to
the original corpus's count scale, `sample_counts_single[i,a] = freq_single[i,a] * Ni[i]`
and `sample_counts_pair[i,j,a,b] = freq_pair[i,j,a,b] * Nij[i,j]` (visible in the
returned flat raw gradient as `freq*total - observed count`), where `Ni` and `Nij` are
the **gap-inclusive** weighted count totals — sums of the observed counts over all 21
states (source lines 55-56 with the gap reset commented out) — fixed at construction
from the observed statistics. -/
theorem claim_C4_amended (cd : CD) (x : List ℚ) (p : Bool) (ids : List ℕ)
    (gibbs : List ℚ → List (List ℕ) → ℕ → List (List ℕ))
    (pcFreqs : List (List ℕ) → List ℚ → Mat2 × Ten4)
    (reg : Mat2 → Ten4 → ℚ × Mat2 × Ten4) (i j a b : ℕ)
    (h : 1 < cd.ncol) (hi : i < cd.ncol) (hj : j < cd.ncol) (hij : i ≠ j)
    (ha : a < 21) (hb : b < 21) :
    (cd.evaluate x p ids gibbs pcFreqs reg).2.map (fun out => out.g.getD (i * 21 + a) 0)
      = some ((pcFreqs (gibbs x ((cd.init_sample_alignment p ids).2.1) cd.gibbs_steps)
            ((cd.init_sample_alignment p ids).2.2)).1 i a * cd.Ni i
          - cd.msa_counts_single i a) ∧
    (cd.evaluate x p ids gibbs pcFreqs reg).2.map
        (fun out => out.g.getD (21 * cd.ncol + pidx cd.ncol i j a b) 0)
      = some ((pcFreqs (gibbs x ((cd.init_sample_alignment p ids).2.1) cd.gibbs_steps)
            ((cd.init_sample_alignment p ids).2.2)).2 i j a b * cd.Nij i j
          - cd.msa_counts_pair i j a b) ∧
    (∀ (msa : List (List ℕ)) (weights : List ℚ) (fs : Mat2) (fp : Ten4) (gs k : ℕ)
        (pp : Bool) (i2 j2 : ℕ),
      (CD.init msa weights fs fp gs k pp).Ni i2 =
        sum21 (fun a2 => (CD.init msa weights fs fp gs k pp).msa_counts_single i2 a2) ∧
      (CD.init msa weights fs fp gs k pp).Nij i2 j2 =
        sum21 (fun a2 => sum21 (fun b2 =>
          (CD.init msa weights fs fp gs k pp).msa_counts_pair i2 j2 a2 b2))) := by
  refine ⟨?_, ?_, fun _ _ _ _ _ _ _ _ _ => ⟨rfl, rfl⟩⟩
  · simp only [CD.evaluate]
    rw [if_pos h]
    simp only [Option.map_some']
    rw [structured_to_linear_getD_single cd.ncol _ _ i a hi ha]
    rfl
  · simp only [CD.evaluate]
    rw [if_pos h]
    simp only [Option.map_some']
    rw [structured_to_linear_getD_pair cd.ncol _ _ i j a b hi hj ha hb]
    simp [gradPair, sampleCountsPair, hij]

theorem claim_C4_amended_witness :
    (cdEx.evaluate [] false idsE gibbsId pcU regZero).2.map
        (fun out => out.g.getD (0 * 21 + 0) 0)
      = some (fsU 0 0 * cdEx.Ni 0 - cdEx.msa_counts_single 0 0) ∧
    (cdEx.evaluate [] false idsE gibbsId pcU regZero).2.map
        (fun out => out.g.getD (21 * cdEx.ncol + pidx cdEx.ncol 0 1 0 0) 0)
      = some (fpU 0 1 0 0 * cdEx.Nij 0 1 - cdEx.msa_counts_pair 0 1 0 0) :=
  ⟨(claim_C4_amended cdEx [] false idsE gibbsId pcU regZero 0 1 0 0 (by decide) (by decide)
      (by decide) (by decide) (by decide) (by decide)).1,
   (claim_C4_amended cdEx [] false idsE gibbsId pcU regZero 0 1 0 0 (by decide) (by decide)
      (by decide) (by decide) (by decide) (by decide)).2.1⟩
